import Mathlib

/-!
Shallow embedding of the readium-lcp-server packaging layer:
`pack/rwppackage.go` (Readium Web Publication Package reader/writer) and
`xmlenc/encryption.go` (XML encryption manifest codec).

Machine integers that appear (zip storage method `uint16`, sizes) are
modelled as `Nat`; no claim depends on overflow.  Fallible I/O steps of
the Go code (zip entry creation, stream open/copy/close, JSON encoding)
are modelled by explicit error oracles of type `Option Err`: a `none`
oracle means the step succeeds, `some e` means it fails with error `e`,
and the embedded function combines the oracles exactly as the Go control
flow combines the corresponding error values.
-/

/-- Go `error` values, abstracted as strings (`errors.New` messages). -/
def Err := String
deriving instance DecidableEq, Repr for Err

deriving instance DecidableEq for Except

namespace Pack

/-- Modelled from the spec: `rwpm.Encrypted`, the inline encryption record of a
JSON-manifest link (the `rwpm` package is not part of the sources; §6 gives its
wire shape {scheme, profile, algorithm}). -/
structure Encrypted where
  scheme : String
  profile : String
  algorithm : String
deriving DecidableEq, Repr

/-- Modelled from the spec: `rwpm.Properties`; the Go value is a pointer whose
`Encrypted` field is itself a nullable pointer. -/
structure Properties where
  encrypted : Option Encrypted
deriving DecidableEq, Repr

/-- Modelled from the spec: `rwpm.Link` — href, content type, optional
properties (a nil pointer in Go is `none` here). -/
structure Link where
  href : String
  type : String
  properties : Option Properties := none
deriving DecidableEq, Repr

/-- Modelled from the spec: `rwpm.Publication`, the JSON reading-order
manifest: `{metadata: {title}, readingOrder: [...], resources: [...]}`. -/
structure Publication where
  title : String
  readingOrder : List Link
  resources : List Link
deriving DecidableEq, Repr

/-- A zip archive entry as seen by the reader (`zip.File`): its name, storage
method and size, plus oracles for the fallible open/decode steps performed on
it (`file.Open`, JSON decoding of its bytes).  `decoded` is the result of
JSON-decoding the entry's bytes as a `Publication`. -/
structure ZipFile where
  name : String
  method : Nat := 8
  uncompressedSize : Nat := 0
  openErr : Option Err := none
  decoded : Except Err Publication := .error "not a manifest"
deriving DecidableEq, Repr

/-- `RWPPReader`: parsed manifest plus the source zip entries. -/
structure RWPPReader where
  manifest : Publication
  zipArchive : List ZipFile
deriving DecidableEq, Repr

/-- `RWPPWriter`: destination zip (entries created so far, as name/storage
method pairs) and the working manifest. -/
structure RWPPWriter where
  manifest : Publication
  zipEntries : List (String × Nat)
deriving DecidableEq, Repr

/-- The Go loop `files := map[...]; for _, file := range ... { files[file.Name]
= file }` indexes entries by name, a later entry overwriting an earlier one
with the same name; lookup of a missing key yields Go's nil, i.e. `none`. -/
def filesIndex (archive : List ZipFile) (name : String) : Option ZipFile :=
  (archive.reverse).find? (fun f => f.name = name)

/-- One resource view produced by `RWPPReader.Resources`
(Go struct `rwpResource`). -/
structure RwpResource where
  isEncrypted : Bool
  contentType : String
  file : Option ZipFile
deriving DecidableEq, Repr

/-- `rwpResource.CanBeEncrypted`: constant `true` in the source. -/
def RwpResource.canBeEncrypted (_ : RwpResource) : Bool := true

/-- `rwpResource.CompressBeforeEncryption`: constant `false` in the source. -/
def RwpResource.compressBeforeEncryption (_ : RwpResource) : Bool := false

/-- `RWPPReader.Resources`: one `rwpResource` per reading-order link, in
manifest order; `isEncrypted := link.Properties != nil &&
link.Properties.Encrypted != nil`. -/
def RWPPReader.Resources (reader : RWPPReader) : List RwpResource :=
  reader.manifest.readingOrder.map (fun mr =>
    { isEncrypted := match mr.properties with
                     | some p => p.encrypted.isSome
                     | none => false
      contentType := mr.type
      file := filesIndex reader.zipArchive mr.href })

/-- `RWPPWriter.NewFile`: create a zip header for `path` with the requested
storage method (fallibility via `createErr`), then append the link
`{Href: path, Type: contentType}` to the working reading order — the append
is unconditional, it happens whether or not `CreateHeader` failed.  Returns
the updated writer and the error returned to the caller. -/
def RWPPWriter.NewFile (writer : RWPPWriter) (path contentType : String)
    (storageMethod : Nat) (createErr : Option Err) : RWPPWriter × Option Err :=
  ({ manifest :=
       { writer.manifest with
         readingOrder := writer.manifest.readingOrder ++
           [{ href := path, type := contentType }] }
     zipEntries := match createErr with
                   | none => writer.zipEntries ++ [(path, storageMethod)]
                   | some _ => writer.zipEntries },
   createErr)

/-- The fixed scheme identifier written by `MarkAsEncrypted`. -/
def lcpScheme : String := "http://readium.org/2014/01/lcp"

/-- The loop body of `RWPPWriter.MarkAsEncrypted` on the reading order: scan
for the first link whose href equals `path`; on match, allocate `Properties`
if nil, overwrite its `Encrypted` record, and `break`. -/
def markAsEncryptedRO (ro : List Link) (path profile algorithm : String) :
    List Link :=
  match ro with
  | [] => []
  | l :: ls =>
    if path = l.href then
      { l with properties := some ⟨some ⟨lcpScheme, profile, algorithm⟩⟩ } :: ls
    else
      l :: markAsEncryptedRO ls path profile algorithm

/-- `RWPPWriter.MarkAsEncrypted` (a `license.EncryptionProfile` is carried as
its `String()` form, which is what the code stores). -/
def RWPPWriter.MarkAsEncrypted (writer : RWPPWriter)
    (path profile algorithm : String) : RWPPWriter :=
  { writer with
    manifest := { writer.manifest with
      readingOrder :=
        markAsEncryptedRO writer.manifest.readingOrder path profile algorithm } }

/-- `ManifestLocation`. -/
def ManifestLocation : String := "manifest.json"

/-- Result of `RWPPWriter.Close`: the error returned, whether
`zipWriter.Close()` was reached, and the manifest committed to the archive at
`ManifestLocation` when serialization succeeded (JSON encoding of the
`Publication` struct is modelled as the value itself; `Read`-back decodes it
losslessly). -/
structure CloseResult where
  error : Option Err
  archiveCloseAttempted : Bool
  committedManifest : Option Publication
deriving DecidableEq, Repr

/-- `RWPPWriter.Close`: run `writeManifest` (fallible: zip entry creation or
JSON encoding, oracle `writeManifestErr`); on failure return that error at
once — `zipWriter.Close()` is not reached.  Otherwise return the result of
`zipWriter.Close()` (oracle `archiveCloseErr`). -/
def RWPPWriter.Close (writer : RWPPWriter)
    (writeManifestErr archiveCloseErr : Option Err) : CloseResult :=
  match writeManifestErr with
  | some e =>
    { error := some e, archiveCloseAttempted := false, committedManifest := none }
  | none =>
    { error := archiveCloseErr, archiveCloseAttempted := true,
      committedManifest := some writer.manifest }

/-- `rwpResource.CopyTo`: `NewFile`, then `Open`, then `io.Copy`, then close
both streams, with the error combination of the source:
if the transfer (`io.Copy`) erred return that error; else if the source-stream
close erred return that; else return the destination-stream close error.
Errors of the four steps are the oracles. -/
def copyTo (newFileErr openErr copyErr rCloseErr wCloseErr : Option Err) :
    Option Err :=
  match newFileErr with
  | some e => some e
  | none =>
    match openErr with
    | some e => some e
    | none =>
      match copyErr with
      | some e => some e
      | none =>
        match rCloseErr with
        | some e => some e
        | none => wCloseErr

/-- `NewRWPPReader`: scan the entries for the first one named
`ManifestLocation`; if found, open it (fallible) and JSON-decode it
(fallible), returning the reader on success; if no entry has that name,
fail with `errors.New("Could not find manifest")`. -/
def NewRWPPReader (zipReader : List ZipFile) : Except Err RWPPReader :=
  match zipReader.find? (fun f => f.name = ManifestLocation) with
  | some file =>
    match file.openErr with
    | some e => .error e
    | none =>
      match file.decoded with
      | .error e => .error e
      | .ok manifest => .ok { zipArchive := zipReader, manifest := manifest }
  | none => .error "Could not find manifest"

/-- `RWPPReader.NewWriter`, manifest part: the working manifest is the source
manifest with its reading order cleared (`manifest.ReadingOrder = nil`).  The
verbatim copy of the W3C manifest and of ancillary resources touches only the
destination archive, modelled by the seeded `zipEntries`. -/
def RWPPReader.NewWriter (reader : RWPPReader) : RWPPWriter :=
  { manifest := { reader.manifest with readingOrder := [] }
    zipEntries := reader.manifest.resources.map (fun r => (r.href, 8)) }

end Pack

namespace UrlModel

/-!
Modelled from the spec: the `net/url` machinery used by
`Manifest.DataForFile` — "parse `path` as a URI reference, take its
escaped-path form".  The `net/url` package is Go standard library, not part
of the sources, so it is modelled here at the byte level (Go strings are byte
strings; a Lean `String` is converted to its UTF-8 bytes first).  Userinfo
and host validation inside an authority component is not modelled: the
container paths this codec compares never carry an authority.
-/

/-- UTF-8 encoding of one character, as byte values. -/
def utf8Bytes (c : Char) : List Nat :=
  let n := c.toNat
  if n < 128 then [n]
  else if n < 2048 then [192 + n / 64, 128 + n % 64]
  else if n < 65536 then [224 + n / 4096, 128 + (n / 64) % 64, 128 + n % 64]
  else [240 + n / 262144, 128 + (n / 4096) % 64, 128 + (n / 64) % 64,
        128 + n % 64]

/-- A string as its UTF-8 bytes. -/
def strBytes (s : String) : List Nat := (s.data.map utf8Bytes).flatten

/-- Bytes back to a string (used only on ASCII output). -/
def bytesStr (bs : List Nat) : String := ⟨bs.map Char.ofNat⟩

def isDigitB (b : Nat) : Bool := 48 ≤ b && b ≤ 57

def isAlphaB (b : Nat) : Bool := (65 ≤ b && b ≤ 90) || (97 ≤ b && b ≤ 122)

def isHexB (b : Nat) : Bool :=
  isDigitB b || (65 ≤ b && b ≤ 70) || (97 ≤ b && b ≤ 102)

def unhexB (b : Nat) : Nat :=
  if isDigitB b then b - 48
  else if 65 ≤ b && b ≤ 70 then b - 55
  else if 97 ≤ b && b ≤ 102 then b - 87
  else 0

/-- Byte of the uppercase hex digit for `n < 16` (Go `upperhex`). -/
def hexUp (n : Nat) : Nat := if n < 10 then 48 + n else 55 + n

/-- Every `%` (byte 37) is followed by two hex digits — the condition under
which Go `unescape` succeeds. -/
def validPercent : List Nat → Bool
  | [] => true
  | 37 :: a :: b :: rest => isHexB a && isHexB b && validPercent rest
  | 37 :: _ => false
  | _ :: rest => validPercent rest

/-- Go `unescape` (mode `encodePath`), on input with valid escapes. -/
def unescapeP : List Nat → List Nat
  | [] => []
  | 37 :: a :: b :: rest => (16 * unhexB a + unhexB b) :: unescapeP rest
  | b :: rest => b :: unescapeP rest

/-- Go `shouldEscape(c, encodePath)`: keep alphanumerics, the unreserved
marks `-` `_` `.` `~`, and of the reserved set `$ & + , / : ; = ? @` escape
only `?`. -/
def shouldEscapePath (b : Nat) : Bool :=
  if isAlphaB b || isDigitB b then false
  else if b = 45 || b = 95 || b = 46 || b = 126 then false
  else if b = 36 || b = 38 || b = 43 || b = 44 || b = 47 || b = 58 ||
          b = 59 || b = 61 || b = 63 || b = 64 then b = 63
  else true

/-- Go `escape` (mode `encodePath`). -/
def escapeP : List Nat → List Nat
  | [] => []
  | b :: rest =>
    (if shouldEscapePath b then [37, hexUp (b / 16), hexUp (b % 16)]
     else [b]) ++ escapeP rest

/-- Go `validEncoded` (mode `encodePath`): bytes allowed to appear raw in an
already-escaped path. -/
def validEncodedByte (b : Nat) : Bool :=
  if b = 33 || b = 36 || b = 38 || b = 39 || b = 40 || b = 41 || b = 42 ||
     b = 43 || b = 44 || b = 59 || b = 61 || b = 58 || b = 64 then true
  else if b = 91 || b = 93 then true
  else if b = 37 then true
  else !shouldEscapePath b

def validEncodedP (bs : List Nat) : Bool := bs.all validEncodedByte

/-- `URL.EscapedPath` applied to a URL whose path component was written as
`p` (combines `setPath`'s `RawPath` bookkeeping with `EscapedPath`). -/
def escapedPathOf (p : List Nat) : List Nat :=
  if validEncodedP p || p = escapeP (unescapeP p) then p
  else escapeP (unescapeP p)

/-- Split at the first occurrence of byte `sep`: the part before, and the
part after when `sep` occurs. -/
def splitFirst (sep : Nat) : List Nat → List Nat × Option (List Nat)
  | [] => ([], none)
  | b :: rest =>
    if b = sep then ([], some rest)
    else
      let r := splitFirst sep rest
      (b :: r.1, r.2)

def isSchemeTailByte (b : Nat) : Bool :=
  isDigitB b || b = 43 || b = 45 || b = 46

/-- Go `getScheme` scan: `some (i, true)` when a scheme ends with the colon
at index `i`, `some (_, false)` when there is no scheme, `none` on the
"missing protocol scheme" error (leading colon). -/
def schemeScanAux : List Nat → Nat → Option (Nat × Bool)
  | [], _ => some (0, false)
  | b :: rest, i =>
    if isAlphaB b then schemeScanAux rest (i + 1)
    else if isSchemeTailByte b then
      if i = 0 then some (0, false) else schemeScanAux rest (i + 1)
    else if b = 58 then
      if i = 0 then none else some (i, true)
    else some (0, false)

/-- Go `getScheme`: the input after the scheme (if any), and whether a scheme
was present; `none` on error. -/
def schemeSplit (bs : List Nat) : Option (List Nat × Bool) :=
  match schemeScanAux bs 0 with
  | none => none
  | some (_, false) => some (bs, false)
  | some (i, true) => some (bs.drop (i + 1), true)

def startsWithSlash : List Nat → Bool
  | 47 :: _ => true
  | _ => false

def startsWith2Slash : List Nat → Bool
  | 47 :: 47 :: _ => true
  | _ => false

def startsWith3Slash : List Nat → Bool
  | 47 :: 47 :: 47 :: _ => true
  | _ => false

/-- Whether the first `/`-separated segment contains a colon (Go's "first
path segment in URL cannot contain colon" check). -/
def firstSegmentHasColon (bs : List Nat) : Bool :=
  ((splitFirst 47 bs).1).contains 58

/-- Drop a leading `//authority` (Go `parse`, authority branch): the path
restarts at the first `/` after the two slashes, or is empty. -/
def stripAuthority (bs : List Nat) : List Nat :=
  match splitFirst 47 (bs.drop 2) with
  | (_, none) => []
  | (_, some after) => 47 :: after

/-- Go `URL.parse` (viaRequest = false) on the input after fragment removal
and scheme extraction: the raw path component, or `none` on a parse error. -/
def parseRest (hasScheme : Bool) (afterScheme : List Nat) : Option (List Nat) :=
  let rest := (splitFirst 63 afterScheme).1
  if hasScheme && !startsWithSlash rest then
    some []
  else if !hasScheme && !startsWithSlash rest && firstSegmentHasColon rest then
    none
  else
    let rest2 :=
      if (hasScheme || !startsWith3Slash rest) && startsWith2Slash rest then
        stripAuthority rest
      else rest
    if validPercent rest2 then some rest2 else none

/-- `url.Parse(path)` followed by `.EscapedPath()`: `none` when `url.Parse`
errors (control byte, leading colon, colon in the first segment of a
schemeless relative path, invalid percent escape in path or fragment). -/
def escapedPath (s : String) : Option String :=
  let bs := strBytes s
  if bs.any (fun b => b < 32 || b = 127) then none
  else
    let fr := splitFirst 35 bs
    if !(match fr.2 with | none => true | some f => validPercent f) then none
    else
      match schemeSplit fr.1 with
      | none => none
      | some (afterScheme, hasScheme) =>
        match parseRest hasScheme afterScheme with
        | none => none
        | some p => some (bytesStr (escapedPathOf p))

end UrlModel

namespace Xmlenc

/-!
Data model of `xmlenc/encryption.go`, translated field by field from the Go
struct declarations.  Empty string / zero number stand for Go zero values
(the `omitempty` fields); a Go nil pointer is `none`.
-/

/-- Go `Method`: `KeySize int`, `Algorithm URI` (attr, omitempty). -/
structure Method where
  keySize : Nat := 0
  algorithm : String := ""
deriving DecidableEq, Repr

/-- Go `CipherReference`: `URI URI` (attr). -/
structure CipherReference where
  uri : String := ""
deriving DecidableEq, Repr

/-- Go `CipherData`: a `CipherReference` child plus an optional `Value`
(base64 chardata, carried abstractly as the byte string). -/
structure CipherData where
  cipherReference : CipherReference := {}
  value : String := ""
deriving DecidableEq, Repr

/-- Go `RetrievalMethod`: `URI` (attr) and `Type` (attr). -/
structure RetrievalMethod where
  uri : String := ""
  type : String := ""
deriving DecidableEq, Repr

/-- Go `KeyInfo`: `KeyName` (attr, omitempty) and a `RetrievalMethod`
child. -/
structure KeyInfo where
  keyName : String := ""
  retrievalMethod : RetrievalMethod := {}
deriving DecidableEq, Repr

/-- Go embedded struct `encryptedType`: `EncryptionMethod`, optional
`KeyInfo` (nil pointer), `CipherData`, and the `Id`/`Type` attributes and
`MimeType`/`Encoding` elements, all omitempty. -/
structure EncryptedType where
  method : Method := {}
  keyInfo : Option KeyInfo := none
  cipherData : CipherData := {}
  id : String := ""
  type : String := ""
  mimeType : String := ""
  encoding : String := ""
deriving DecidableEq, Repr

/-- Go `Compression`: `Method int` (attr), `OriginalLength uint64` (attr). -/
structure Compression where
  method : Int := 0
  originalLength : Nat := 0
deriving DecidableEq, Repr

/-- Go `EncryptionProperty`: one `Compression` child. -/
structure EncryptionProperty where
  compression : Compression := {}
deriving DecidableEq, Repr

/-- Go `EncryptionProperties`: a list of `EncryptionProperty` children. -/
structure EncryptionProperties where
  properties : List EncryptionProperty := []
deriving DecidableEq, Repr

/-- Go `Data`: `encryptedType` (embedded) plus optional
`EncryptionProperties` (nil pointer, omitempty). -/
structure Data where
  enc : EncryptedType := {}
  properties : Option EncryptionProperties := none
deriving DecidableEq, Repr

/-- Go `Manifest`: the `EncryptedData` list (root element `encryption` in the
opendocument container namespace). -/
structure Manifest where
  data : List Data := []
deriving DecidableEq, Repr

/-- `Manifest.DataForFile`: `url.Parse` the path (failure gives the Go
`(Data{}, false)` return, `none` here), take its escaped path and return the
first record whose stored cipher-reference URI is string-equal to it. -/
def Manifest.DataForFile (m : Manifest) (path : String) : Option Data :=
  match UrlModel.escapedPath path with
  | none => none
  | some uri =>
    m.data.find? (fun d => d.enc.cipherData.cipherReference.uri = uri)

/-!
Modelled from the spec: the `encoding/xml` serialization used by
`Manifest.Write` and `Read` (Go standard library, not in the sources).  It
is modelled at the level of the XML element tree the encoder emits and the
decoder consumes: element and attribute identities are enum values, each
standing for the namespace/local-name pair of the corresponding Go struct
tag; scalar serialization inside attribute values and character data is kept
abstract (`XVal`).  `Manifest.Write` wraps the tree with the emitted XML
declaration (`xml.Header`) and the 2-space indentation setting; byte-level
escaping, indentation whitespace and the charset translation done by
`Read`'s `CharsetReader` have no tree-level content.
-/

/-- Element identities, one per Go struct tag:
`encryption` (urn:oasis:names:tc:opendocument:xmlns:container), the
xmlenc-namespace elements (`EncryptedData`, `EncryptionMethod`, `KeySize`,
`CipherData`, `CipherReference`, `Value`, `MimeType`, `Encoding`,
`EncryptionProperties`, `EncryptionProperty`), `KeyInfo`/`RetrievalMethod`
(xmldsig namespace) and `Compression` (idpf compression namespace). -/
inductive XName where
  | encryption
  | encryptedData
  | encryptionMethod
  | keySize
  | keyInfo
  | retrievalMethod
  | cipherData
  | cipherReference
  | valueElem
  | mimeType
  | encodingElem
  | encryptionProperties
  | encryptionProperty
  | compression
deriving DecidableEq, Repr

/-- Attribute identities: `Algorithm`, `URI`, `KeyName`, `Type`, `Id`,
`Method`, `OriginalLength`. -/
inductive XAttr where
  | algorithm
  | uri
  | keyName
  | typeAttr
  | idAttr
  | methodAttr
  | originalLength
deriving DecidableEq, Repr

/-- Scalar values carried by attributes and character data. -/
inductive XVal where
  | str (s : String)
  | int (i : Int)
  | nat (n : Nat)
deriving DecidableEq, Repr

/-- One node of the emitted XML tree. -/
inductive XNode where
  | elem (name : XName) (attrs : List (XAttr × XVal)) (children : List XNode)
  | text (v : XVal)

/-- The serialized form produced by `Manifest.Write`: the XML declaration
written first, the indentation parameters passed to the encoder, and the
document tree. -/
structure XmlOut where
  header : String
  indentLead : String
  indentStep : String
  root : XNode

/-- Go `xml.Header`. -/
def xmlHeader : String := "<?xml version=\x221.0\x22 encoding=\x22UTF-8\x22?>\n"

/-- An attribute that is omitted when the string is empty (`omitempty`). -/
def attrStrOpt (a : XAttr) (s : String) : List (XAttr × XVal) :=
  if s = "" then [] else [(a, .str s)]

/-- A text-only element that is omitted when the string is empty. -/
def elemStrOpt (n : XName) (s : String) : List XNode :=
  if s = "" then [] else [.elem n [] [.text (.str s)]]

def encodeMethod (m : Method) : XNode :=
  .elem .encryptionMethod (attrStrOpt .algorithm m.algorithm)
    (if m.keySize = 0 then []
     else [.elem .keySize [] [.text (.nat m.keySize)]])

def encodeRetrievalMethod (r : RetrievalMethod) : XNode :=
  .elem .retrievalMethod [(.uri, .str r.uri), (.typeAttr, .str r.type)] []

def encodeKeyInfo (k : KeyInfo) : XNode :=
  .elem .keyInfo (attrStrOpt .keyName k.keyName)
    [encodeRetrievalMethod k.retrievalMethod]

def encodeCipherData (c : CipherData) : XNode :=
  .elem .cipherData []
    ([.elem .cipherReference [(.uri, .str c.cipherReference.uri)] []] ++
     elemStrOpt .valueElem c.value)

def encodeCompression (c : Compression) : XNode :=
  .elem .compression
    [(.methodAttr, .int c.method), (.originalLength, .nat c.originalLength)] []

def encodeProperty (p : EncryptionProperty) : XNode :=
  .elem .encryptionProperty [] [encodeCompression p.compression]

def encodeProperties (ps : EncryptionProperties) : XNode :=
  .elem .encryptionProperties [] (ps.properties.map encodeProperty)

def encodeData (d : Data) : XNode :=
  .elem .encryptedData (attrStrOpt .idAttr d.enc.id ++
                        attrStrOpt .typeAttr d.enc.type)
    ([encodeMethod d.enc.method] ++
     (match d.enc.keyInfo with
      | some k => [encodeKeyInfo k]
      | none => []) ++
     [encodeCipherData d.enc.cipherData] ++
     elemStrOpt .mimeType d.enc.mimeType ++
     elemStrOpt .encodingElem d.enc.encoding ++
     (match d.properties with
      | some ps => [encodeProperties ps]
      | none => []))

def encodeManifest (m : Manifest) : XNode :=
  .elem .encryption [] (m.data.map encodeData)

/-- `Manifest.Write`: emit `xml.Header`, set `Indent("", "  ")`, encode. -/
def Manifest.Write (m : Manifest) : XmlOut :=
  { header := xmlHeader, indentLead := "", indentStep := "  ",
    root := encodeManifest m }

def XNode.isElemNamed (n : XName) : XNode → Bool
  | .elem m _ _ => m = n
  | .text _ => false

/-- The first child element with a given identity (a non-slice Go struct
field consumes a matching element). -/
def findElem (n : XName) : List XNode → Option XNode
  | [] => none
  | c :: cs => if c.isElemNamed n then some c else findElem n cs

/-- All child elements with a given identity, in order (a Go slice field
collects every matching element). -/
def filterElems (n : XName) : List XNode → List XNode
  | [] => []
  | c :: cs =>
    if c.isElemNamed n then c :: filterElems n cs else filterElems n cs

def attrLookup (a : XAttr) : List (XAttr × XVal) → Option XVal
  | [] => none
  | (k, v) :: rest => if k = a then some v else attrLookup a rest

def attrOf (a : XAttr) (x : XNode) : Option XVal :=
  match x with
  | .elem _ attrs _ => attrLookup a attrs
  | .text _ => none

def childrenOf (x : XNode) : List XNode :=
  match x with
  | .elem _ _ cs => cs
  | .text _ => []

/-- A string attribute, Go zero value when absent. -/
def attrStr (a : XAttr) (x : XNode) : String :=
  match attrOf a x with
  | some (.str s) => s
  | _ => ""

def attrInt (a : XAttr) (x : XNode) : Int :=
  match attrOf a x with
  | some (.int i) => i
  | _ => 0

def attrNat (a : XAttr) (x : XNode) : Nat :=
  match attrOf a x with
  | some (.nat n) => n
  | _ => 0

/-- String character data of the first child element with identity `n`, Go
zero value when the element is absent. -/
def childText (n : XName) (cs : List XNode) : String :=
  match findElem n cs with
  | some (.elem _ _ [.text (.str s)]) => s
  | _ => ""

def childTextNat (n : XName) (cs : List XNode) : Nat :=
  match findElem n cs with
  | some (.elem _ _ [.text (.nat k)]) => k
  | _ => 0

def decodeMethod (x : Option XNode) : Method :=
  match x with
  | some e =>
    { keySize := childTextNat .keySize (childrenOf e)
      algorithm := attrStr .algorithm e }
  | none => {}

def decodeRetrievalMethod (x : Option XNode) : RetrievalMethod :=
  match x with
  | some e => { uri := attrStr .uri e, type := attrStr .typeAttr e }
  | none => {}

def decodeKeyInfo (x : XNode) : KeyInfo :=
  { keyName := attrStr .keyName x
    retrievalMethod :=
      decodeRetrievalMethod (findElem .retrievalMethod (childrenOf x)) }

def decodeCipherReference (x : Option XNode) : CipherReference :=
  match x with
  | some e => { uri := attrStr .uri e }
  | none => {}

def decodeCipherData (x : Option XNode) : CipherData :=
  match x with
  | some e =>
    { cipherReference :=
        decodeCipherReference (findElem .cipherReference (childrenOf e))
      value := childText .valueElem (childrenOf e) }
  | none => {}

def decodeCompression (x : Option XNode) : Compression :=
  match x with
  | some e =>
    { method := attrInt .methodAttr e, originalLength := attrNat .originalLength e }
  | none => {}

def decodeProperty (x : XNode) : EncryptionProperty :=
  { compression := decodeCompression (findElem .compression (childrenOf x)) }

def decodeProperties (x : XNode) : EncryptionProperties :=
  { properties := (filterElems .encryptionProperty (childrenOf x)).map decodeProperty }

def decodeData (x : XNode) : Data :=
  { enc :=
      { method := decodeMethod (findElem .encryptionMethod (childrenOf x))
        keyInfo := (findElem .keyInfo (childrenOf x)).map decodeKeyInfo
        cipherData := decodeCipherData (findElem .cipherData (childrenOf x))
        id := attrStr .idAttr x
        type := attrStr .typeAttr x
        mimeType := childText .mimeType (childrenOf x)
        encoding := childText .encodingElem (childrenOf x) }
    properties := (findElem .encryptionProperties (childrenOf x)).map decodeProperties }

def decodeManifest (x : XNode) : Manifest :=
  { data := (filterElems .encryptedData (childrenOf x)).map decodeData }

/-- `Read`: decode the document tree back into a `Manifest` (malformed byte
streams and charset resolution are below the tree level of this model). -/
def Read (out : XmlOut) : Manifest := decodeManifest out.root

end Xmlenc

namespace Pack

/-- Whether a link carries an encryption record
(`Properties != nil && Properties.Encrypted != nil`). -/
def Link.hasEncryptionRecord (l : Link) : Bool :=
  match l.properties with
  | some p => p.encrypted.isSome
  | none => false

/-- One call of the driving sequence of claim C1: `NewFile` (successful) or
`MarkAsEncrypted`. -/
inductive PackOp where
  | newFile (path contentType : String) (storageMethod : Nat)
  | markAsEnc (path profile algorithm : String)
deriving DecidableEq, Repr

def applyOp (w : RWPPWriter) : PackOp → RWPPWriter
  | .newFile p t m => (w.NewFile p t m none).1
  | .markAsEnc p pr al => w.MarkAsEncrypted p pr al

/-- Run a sequence of writer calls. -/
def runOps (w : RWPPWriter) (ops : List PackOp) : RWPPWriter :=
  ops.foldl applyOp w

/-- The paths passed to `NewFile`, in call order. -/
def newFilePaths (ops : List PackOp) : List String :=
  ops.filterMap (fun op => match op with
    | .newFile p _ _ => some p
    | _ => none)

/-- The paths passed to `MarkAsEncrypted`, in call order. -/
def markPaths (ops : List PackOp) : List String :=
  ops.filterMap (fun op => match op with
    | .markAsEnc p _ _ => some p
    | _ => none)

def isMark : PackOp → Bool
  | .markAsEnc _ _ _ => true
  | _ => false

def opPath : PackOp → String
  | .newFile p _ _ => p
  | .markAsEnc p _ _ => p

theorem markRO_map_href (ro : List Link) (path profile algorithm : String) :
    (markAsEncryptedRO ro path profile algorithm).map Link.href =
      ro.map Link.href := by
  induction ro with
  | nil => rfl
  | cons l ls ih =>
    by_cases h : path = l.href
    · simp [markAsEncryptedRO, h]
    · simp [markAsEncryptedRO, h, ih]

theorem markRO_eq_self (ro : List Link) (path profile algorithm : String)
    (h : ∀ l ∈ ro, l.href ≠ path) :
    markAsEncryptedRO ro path profile algorithm = ro := by
  induction ro with
  | nil => rfl
  | cons l ls ih =>
    have hl : l.href ≠ path := h l (by simp)
    have hne : ¬(path = l.href) := fun he => hl he.symm
    simp only [markAsEncryptedRO, if_neg hne]
    exact congrArg _ (ih (fun x hx => h x (List.mem_cons_of_mem _ hx)))

theorem markRO_eq_set (ro : List Link) (path profile algorithm : String)
    (i : Nat) (h : i < ro.length) (hp : ro[i].href = path)
    (hfirst : ∀ j (hj : j < i), ro[j].href ≠ path) :
    markAsEncryptedRO ro path profile algorithm =
      ro.set i { ro[i] with
        properties := some ⟨some ⟨lcpScheme, profile, algorithm⟩⟩ } := by
  induction ro generalizing i with
  | nil => exact absurd h (by simp)
  | cons l ls ih =>
    cases i with
    | zero =>
      simp only [List.getElem_cons_zero] at hp
      simp [markAsEncryptedRO, hp]
    | succ n =>
      have hl : l.href ≠ path := hfirst 0 (Nat.succ_pos n)
      have hne : ¬(path = l.href) := fun he => hl he.symm
      have hn : n < ls.length := Nat.lt_of_succ_lt_succ h
      simp only [markAsEncryptedRO, if_neg hne, List.getElem_cons_succ,
        List.set_cons_succ]
      refine congrArg _ (ih n hn ?_ ?_)
      · simpa using hp
      · intro j hj
        have := hfirst (j + 1) (Nat.succ_lt_succ hj)
        simpa using this

/-- Membership in a marked reading order whose hrefs are duplicate-free:
every element is either the (uniquely) marked link, now carrying a record,
or an untouched element of the original list with a different href. -/
theorem markRO_mem_spec (ro : List Link) (path profile algorithm : String)
    (hnd : (ro.map Link.href).Nodup) (hp : path ∈ ro.map Link.href) :
    ∀ l ∈ markAsEncryptedRO ro path profile algorithm,
      (l.href = path ∧ l.hasEncryptionRecord = true) ∨
      (l.href ≠ path ∧ l ∈ ro) := by
  induction ro with
  | nil => simp at hp
  | cons x xs ih =>
    intro l hl
    by_cases h : path = x.href
    · simp only [markAsEncryptedRO, if_pos h] at hl
      rcases List.mem_cons.mp hl with h1 | h1
      · left
        subst h1
        exact ⟨h.symm, rfl⟩
      · right
        have hx : x.href ∉ xs.map Link.href := (List.nodup_cons.mp hnd).1
        have : l.href ∈ xs.map Link.href := List.mem_map_of_mem _ h1
        refine ⟨fun he => hx ?_, List.mem_cons_of_mem _ h1⟩
        rw [← h, ← he]
        exact this
    · simp only [markAsEncryptedRO, if_neg h] at hl
      rcases List.mem_cons.mp hl with h1 | h1
      · right
        subst h1
        exact ⟨fun he => h (he.symm), List.mem_cons_self _ _⟩
      · have hp' : path ∈ xs.map Link.href := by
          rcases (by simpa using hp : path = x.href ∨ ∃ a ∈ xs, a.href = path)
            with h2 | h2
          · exact absurd h2 h
          · rcases h2 with ⟨a, ha, hae⟩
            exact List.mem_map.mpr ⟨a, ha, hae⟩
        rcases ih (List.nodup_cons.mp hnd).2 hp' l h1 with h2 | h2
        · exact Or.inl h2
        · exact Or.inr ⟨h2.1, List.mem_cons_of_mem _ h2.2⟩

end Pack

namespace Pack

theorem runOps_append (w : RWPPWriter) (ops : List PackOp) (op : PackOp) :
    runOps w (ops ++ [op]) = applyOp (runOps w ops) op := by
  simp [runOps, List.foldl_append]

theorem newFilePaths_append (a b : List PackOp) :
    newFilePaths (a ++ b) = newFilePaths a ++ newFilePaths b :=
  List.filterMap_append ..

theorem markPaths_append (a b : List PackOp) :
    markPaths (a ++ b) = markPaths a ++ markPaths b :=
  List.filterMap_append ..

theorem mem_markPaths (ops : List PackOp) (p : String) (hp : p ∈ markPaths ops) :
    ∃ i, ∃ h : i < ops.length, isMark ops[i] = true ∧ opPath ops[i] = p := by
  rcases List.mem_filterMap.mp hp with ⟨op, hop, hf⟩
  rcases List.mem_iff_getElem.mp hop with ⟨i, h, hi⟩
  refine ⟨i, h, ?_⟩
  cases op with
  | newFile q t m => simp at hf
  | markAsEnc q pr al =>
    simp only [Option.some.injEq] at hf
    subst hf
    rw [hi]
    exact ⟨rfl, rfl⟩

theorem newFilePaths_take_subset (ops : List PackOp) (i : Nat) :
    newFilePaths (ops.take i) ⊆ newFilePaths ops := by
  intro x hx
  exact ((List.take_sublist i ops).filterMap _).subset hx

/-- Invariant of the writer call sequence: starting from an empty reading
order, when the `NewFile` paths are duplicate-free and every
`MarkAsEncrypted` call is preceded by the `NewFile` call for its path, the
final reading order lists the `NewFile` paths in call order and a link
carries an encryption record exactly when its path was marked. -/
theorem runOps_invariant (w0 : RWPPWriter) (hro : w0.manifest.readingOrder = [])
    (ops : List PackOp)
    (hnd : (newFilePaths ops).Nodup)
    (hmark : ∀ i (h : i < ops.length), isMark ops[i] = true →
      opPath ops[i] ∈ newFilePaths (ops.take i)) :
    (runOps w0 ops).manifest.readingOrder.map Link.href = newFilePaths ops ∧
    ∀ l ∈ (runOps w0 ops).manifest.readingOrder,
      (l.hasEncryptionRecord = true ↔ l.href ∈ markPaths ops) := by
  induction ops using List.reverseRecOn with
  | nil =>
    refine ⟨by simp [runOps, hro, newFilePaths], ?_⟩
    intro l hl
    simp only [runOps, List.foldl_nil] at hl
    rw [hro] at hl
    exact absurd hl (List.not_mem_nil l)
  | append_singleton ops op ih =>
    have hnd' : (newFilePaths ops).Nodup := by
      rw [newFilePaths_append] at hnd
      exact hnd.of_append_left
    have hmark' : ∀ i (h : i < ops.length), isMark ops[i] = true →
        opPath ops[i] ∈ newFilePaths (ops.take i) := by
      intro i h hm
      have h2 : i < (ops ++ [op]).length := by
        rw [List.length_append]
        omega
      have hget : (ops ++ [op])[i] = ops[i] := List.getElem_append_left h
      have htake : (ops ++ [op]).take i = ops.take i :=
        List.take_append_of_le_length (Nat.le_of_lt h)
      have := hmark i h2
      rw [hget, htake] at this
      exact this hm
    obtain ⟨iha, ihb⟩ := ih hnd' hmark'
    rw [runOps_append]
    cases op with
    | newFile p t m =>
      have hpnotin : p ∉ newFilePaths ops := by
        rw [newFilePaths_append] at hnd
        intro hmem
        exact (List.disjoint_of_nodup_append hnd) hmem (by simp [newFilePaths])
      have hpnotmark : p ∉ markPaths ops := by
        intro hmem
        obtain ⟨i, h, hm, hpath⟩ := mem_markPaths ops p hmem
        have h2 : i < (ops ++ [PackOp.newFile p t m]).length := by
          rw [List.length_append]
          omega
        have hget : (ops ++ [PackOp.newFile p t m])[i] = ops[i] :=
          List.getElem_append_left h
        have htake : (ops ++ [PackOp.newFile p t m]).take i = ops.take i :=
          List.take_append_of_le_length (Nat.le_of_lt h)
        have := hmark i h2
        rw [hget, htake, hpath] at this
        exact hpnotin (newFilePaths_take_subset ops i (this hm))
      constructor
      · show ((runOps w0 ops).NewFile p t m none).1.manifest.readingOrder.map
            Link.href = _
        simp only [RWPPWriter.NewFile]
        rw [List.map_append, iha, newFilePaths_append]
        simp [newFilePaths]
      · intro l hl
        have hl2 : l ∈ (runOps w0 ops).manifest.readingOrder ++
            [({ href := p, type := t } : Link)] := hl
        rw [markPaths_append]
        have hmp : markPaths [PackOp.newFile p t m] = [] := rfl
        rw [hmp, List.append_nil]
        rcases List.mem_append.mp hl2 with h1 | h1
        · exact ihb l h1
        · have hle : l = { href := p, type := t } := by simpa using h1
          subst hle
          constructor
          · intro he
            exact absurd he (by simp [Link.hasEncryptionRecord])
          · intro hmem
            exact absurd hmem hpnotmark
    | markAsEnc p pr al =>
      have hLlt : ops.length < (ops ++ [PackOp.markAsEnc p pr al]).length := by
        simp
      have hplast : p ∈ newFilePaths ops := by
        have hget : (ops ++ [PackOp.markAsEnc p pr al])[ops.length] =
            PackOp.markAsEnc p pr al := by
          simp
        have htake : (ops ++ [PackOp.markAsEnc p pr al]).take ops.length =
            ops := by
          simp
        have := hmark ops.length hLlt
        rw [hget, htake] at this
        exact this rfl
      have hmem : p ∈ (runOps w0 ops).manifest.readingOrder.map Link.href := by
        rw [iha]
        exact hplast
      have hndro : ((runOps w0 ops).manifest.readingOrder.map Link.href).Nodup := by
        rw [iha]
        exact hnd'
      constructor
      · show (((runOps w0 ops).MarkAsEncrypted p pr al).manifest.readingOrder.map
            Link.href) = _
        simp only [RWPPWriter.MarkAsEncrypted]
        rw [markRO_map_href, iha, newFilePaths_append]
        simp [newFilePaths]
      · intro l hl
        have hl' : l ∈ markAsEncryptedRO (runOps w0 ops).manifest.readingOrder
            p pr al := hl
        rw [markPaths_append]
        have hmp : markPaths [PackOp.markAsEnc p pr al] = [p] := rfl
        rw [hmp]
        rcases markRO_mem_spec _ p pr al hndro hmem l hl' with ⟨he, henc⟩ |
          ⟨hne, hmem2⟩
        · constructor
          · intro _
            rw [he]
            exact List.mem_append_right _ (List.mem_singleton_self p)
          · intro _
            exact henc
        · have hiff := ihb l hmem2
          constructor
          · intro he
            exact List.mem_append_left _ (hiff.mp he)
          · intro hc
            rcases List.mem_append.mp hc with hc | hc
            · exact hiff.mpr hc
            · exact absurd (List.mem_singleton.mp hc) hne

end Pack

namespace Xmlenc

theorem isElemNamed_elem (m : XName) (a : List (XAttr × XVal))
    (c : List XNode) (n : XName) :
    (XNode.elem m a c).isElemNamed n = decide (m = n) := rfl

theorem isElemNamed_encodeMethod (me : Method) (n : XName) :
    (encodeMethod me).isElemNamed n = decide (XName.encryptionMethod = n) := rfl

theorem isElemNamed_encodeRetrievalMethod (r : RetrievalMethod) (n : XName) :
    (encodeRetrievalMethod r).isElemNamed n =
      decide (XName.retrievalMethod = n) := rfl

theorem isElemNamed_encodeKeyInfo (k : KeyInfo) (n : XName) :
    (encodeKeyInfo k).isElemNamed n = decide (XName.keyInfo = n) := rfl

theorem isElemNamed_encodeCipherData (c : CipherData) (n : XName) :
    (encodeCipherData c).isElemNamed n = decide (XName.cipherData = n) := rfl

theorem isElemNamed_encodeCompression (c : Compression) (n : XName) :
    (encodeCompression c).isElemNamed n = decide (XName.compression = n) := rfl

theorem isElemNamed_encodeProperty (p : EncryptionProperty) (n : XName) :
    (encodeProperty p).isElemNamed n =
      decide (XName.encryptionProperty = n) := rfl

theorem isElemNamed_encodeProperties (ps : EncryptionProperties) (n : XName) :
    (encodeProperties ps).isElemNamed n =
      decide (XName.encryptionProperties = n) := rfl

theorem isElemNamed_encodeData (d : Data) (n : XName) :
    (encodeData d).isElemNamed n = decide (XName.encryptedData = n) := rfl

theorem decodeMethod_encodeMethod (me : Method) :
    decodeMethod (some (encodeMethod me)) = me := by
  obtain ⟨ks, alg⟩ := me
  by_cases h1 : ks = 0 <;> by_cases h2 : alg = "" <;>
    simp [encodeMethod, decodeMethod, childTextNat, findElem, childrenOf,
      attrStr, attrOf, attrLookup, attrStrOpt, XNode.isElemNamed, h1, h2]

theorem decodeRetrievalMethod_encodeRetrievalMethod (r : RetrievalMethod) :
    decodeRetrievalMethod (some (encodeRetrievalMethod r)) = r := by
  simp [encodeRetrievalMethod, decodeRetrievalMethod, attrStr, attrOf,
    attrLookup]

theorem decodeKeyInfo_encodeKeyInfo (k : KeyInfo) :
    decodeKeyInfo (encodeKeyInfo k) = k := by
  obtain ⟨kn, rm⟩ := k
  by_cases h : kn = "" <;>
    simp [encodeKeyInfo, decodeKeyInfo, childrenOf, findElem, attrStr,
      attrOf, attrLookup, attrStrOpt, h,
      isElemNamed_encodeRetrievalMethod,
      decodeRetrievalMethod_encodeRetrievalMethod]

theorem decodeCipherData_encodeCipherData (c : CipherData) :
    decodeCipherData (some (encodeCipherData c)) = c := by
  obtain ⟨⟨u⟩, v⟩ := c
  by_cases h : v = "" <;>
    simp [encodeCipherData, decodeCipherData, decodeCipherReference,
      childrenOf, findElem, childText, attrStr, attrOf, attrLookup,
      elemStrOpt, XNode.isElemNamed, h]

theorem decodeProperty_encodeProperty (p : EncryptionProperty) :
    decodeProperty (encodeProperty p) = p := by
  obtain ⟨⟨cm, co⟩⟩ := p
  simp [encodeProperty, decodeProperty, decodeCompression, encodeCompression,
    childrenOf, findElem, attrInt, attrNat, attrOf, attrLookup,
    XNode.isElemNamed]

theorem decodeProperties_encodeProperties (ps : EncryptionProperties) :
    decodeProperties (encodeProperties ps) = ps := by
  obtain ⟨l⟩ := ps
  simp only [encodeProperties, decodeProperties, childrenOf]
  have hf : filterElems .encryptionProperty (l.map encodeProperty) =
      l.map encodeProperty := by
    induction l with
    | nil => rfl
    | cons x xs ih =>
      simp [filterElems, encodeProperty, XNode.isElemNamed, ih]
  rw [hf, List.map_map]
  have : (decodeProperty ∘ encodeProperty) = id := by
    funext x
    exact decodeProperty_encodeProperty x
  rw [this, List.map_id]

set_option maxHeartbeats 3200000 in
theorem decodeData_encodeData (d : Data) :
    decodeData (encodeData d) = d := by
  obtain ⟨⟨me, ki, cd, i, t, mt, en⟩, pr⟩ := d
  by_cases h1 : i = "" <;> by_cases h2 : t = "" <;> by_cases h3 : mt = "" <;>
    by_cases h4 : en = "" <;> cases ki <;> cases pr <;>
    simp [encodeData, decodeData, childrenOf, findElem, childText, attrStr,
      attrOf, attrLookup, attrStrOpt, elemStrOpt, isElemNamed_elem,
      h1, h2, h3, h4, isElemNamed_encodeMethod, isElemNamed_encodeKeyInfo,
      isElemNamed_encodeCipherData, isElemNamed_encodeProperties,
      decodeMethod_encodeMethod,
      decodeKeyInfo_encodeKeyInfo, decodeCipherData_encodeCipherData,
      decodeProperties_encodeProperties]

theorem decodeManifest_encodeManifest (m : Manifest) :
    decodeManifest (encodeManifest m) = m := by
  obtain ⟨ds⟩ := m
  simp only [encodeManifest, decodeManifest, childrenOf]
  have hf : filterElems .encryptedData (ds.map encodeData) =
      ds.map encodeData := by
    induction ds with
    | nil => rfl
    | cons x xs ih =>
      simp [filterElems, encodeData, XNode.isElemNamed, ih]
  rw [hf, List.map_map]
  have : (decodeData ∘ encodeData) = id := by
    funext x
    exact decodeData_encodeData x
  rw [this, List.map_id]

end Xmlenc

theorem find_first_eq {α : Type} (l : List α) (q : α → Bool) (i : Nat)
    (h : i < l.length) (hq : q l[i] = true)
    (hfirst : ∀ j (hj : j < i), q l[j] = false) :
    l.find? q = some l[i] := by
  induction l generalizing i with
  | nil => exact absurd h (by simp)
  | cons x xs ih =>
    cases i with
    | zero =>
      simp only [List.getElem_cons_zero] at hq ⊢
      simp [List.find?, hq]
    | succ n =>
      have h0 : q x = false := by simpa using hfirst 0 (Nat.succ_pos n)
      have hn : n < xs.length := Nat.lt_of_succ_lt_succ h
      simp only [List.getElem_cons_succ] at hq ⊢
      simp only [List.find?, h0]
      refine ih n hn hq (fun j hj => ?_)
      simpa using hfirst (j + 1) (Nat.succ_lt_succ hj)

/-- C1 (amended): for every sequence of successful `NewFile` calls with
pairwise-distinct paths, interleaved with `MarkAsEncrypted` calls each of
which follows the `NewFile` call for its path, followed by a successful
`Close`: the committed manifest's reading order carries exactly the `NewFile`
paths as hrefs, in call order, and a link carries an encryption record if
and only if `MarkAsEncrypted` was called with its path. -/
theorem c1_reading_order_round_trip (reader : Pack.RWPPReader)
    (ops : List Pack.PackOp)
    (hnd : (Pack.newFilePaths ops).Nodup)
    (hmark : ∀ i (h : i < ops.length), Pack.isMark ops[i] = true →
      Pack.opPath ops[i] ∈ Pack.newFilePaths (ops.take i)) :
    ∃ man : Pack.Publication,
      ((Pack.runOps reader.NewWriter ops).Close none none).committedManifest =
        some man ∧
      man.readingOrder.map Pack.Link.href = Pack.newFilePaths ops ∧
      ∀ l ∈ man.readingOrder,
        (l.hasEncryptionRecord = true ↔ l.href ∈ Pack.markPaths ops) := by
  obtain ⟨ha, hb⟩ := Pack.runOps_invariant reader.NewWriter rfl ops hnd hmark
  exact ⟨_, rfl, ha, hb⟩

theorem c1_reading_order_round_trip_witness :
    ∃ man : Pack.Publication,
      ((Pack.runOps (Pack.RWPPReader.NewWriter ⟨⟨"t", [], []⟩, []⟩)
          [.newFile "a.html" "text/html" 8, .newFile "b.html" "text/html" 0,
           .markAsEnc "a.html" "1.0" "aes-cbc"]).Close none
          none).committedManifest = some man ∧
      man.readingOrder.map Pack.Link.href = Pack.newFilePaths
          [.newFile "a.html" "text/html" 8, .newFile "b.html" "text/html" 0,
           .markAsEnc "a.html" "1.0" "aes-cbc"] ∧
      ∀ l ∈ man.readingOrder,
        (l.hasEncryptionRecord = true ↔ l.href ∈ Pack.markPaths
          [.newFile "a.html" "text/html" 8, .newFile "b.html" "text/html" 0,
           .markAsEnc "a.html" "1.0" "aes-cbc"]) :=
  c1_reading_order_round_trip ⟨⟨"t", [], []⟩, []⟩ _ (by decide) (by decide)

/-- C1 counterexample: after `NewFile("a.html")`, `NewFile("a.html")`,
`MarkAsEncrypted("a.html", ...)`, `Close()`, the committed reading order has
two links whose href is the marked path but only the first carries an
encryption record — refuting "a link carries an encryption record iff
`MarkAsEncrypted` was called with its path" for duplicate paths. -/
theorem c1_duplicate_path_counterexample :
    (((Pack.runOps (Pack.RWPPReader.NewWriter ⟨⟨"t", [], []⟩, []⟩)
        [.newFile "a.html" "text/html" 8, .newFile "a.html" "text/html" 8,
         .markAsEnc "a.html" "1.0" "aes-cbc"]).Close none
        none).committedManifest.map (fun man =>
          (man.readingOrder.map Pack.Link.href,
           man.readingOrder.map Pack.Link.hasEncryptionRecord))) =
      some (["a.html", "a.html"], [true, false]) ∧
    Pack.markPaths
        [.newFile "a.html" "text/html" 8, .newFile "a.html" "text/html" 8,
         .markAsEnc "a.html" "1.0" "aes-cbc"] = ["a.html"] := by
  decide

/-- C2: in `rwpResource.CopyTo`, once the destination entry was created and
the source stream opened, a byte-transfer error is returned with priority
over both close errors; with a clean transfer, a source-close error is
returned in preference to a destination-close error; the destination-close
result is returned only when transfer and source close both succeeded. -/
theorem c2_copyTo_error_precedence (copyErr rCloseErr wCloseErr : Option Err) :
    (∀ e, copyErr = some e →
      Pack.copyTo none none copyErr rCloseErr wCloseErr = some e) ∧
    (copyErr = none → ∀ e, rCloseErr = some e →
      Pack.copyTo none none copyErr rCloseErr wCloseErr = some e) ∧
    (copyErr = none → rCloseErr = none →
      Pack.copyTo none none copyErr rCloseErr wCloseErr = wCloseErr) := by
  refine ⟨?_, ?_, ?_⟩
  · intro e he
    subst he
    rfl
  · intro hc e he
    subst hc
    subst he
    rfl
  · intro hc hr
    subst hc
    subst hr
    rfl

theorem c2_copyTo_error_precedence_witness :
    Pack.copyTo none none (some "copy failed") (some "source close failed")
        (some "dest close failed") = some "copy failed" ∧
    Pack.copyTo none none none (some "source close failed")
        (some "dest close failed") = some "source close failed" ∧
    Pack.copyTo none none none none (some "dest close failed") =
      some "dest close failed" :=
  ⟨(c2_copyTo_error_precedence _ _ _).1 _ rfl,
   (c2_copyTo_error_precedence _ _ _).2.1 rfl _ rfl,
   (c2_copyTo_error_precedence _ _ _).2.2 rfl rfl⟩

/-- C3: `MarkAsEncrypted(path, ...)` modifies only the first reading-order
link whose href equals `path`, attaching an encryption record with the fixed
scheme identifier and the given profile and algorithm, leaving every other
link unchanged; when no link matches, the writer is unchanged. -/
theorem c3_markAsEncrypted_first_match_only (w : Pack.RWPPWriter)
    (path profile algorithm : String) :
    ((∀ l ∈ w.manifest.readingOrder, l.href ≠ path) →
      w.MarkAsEncrypted path profile algorithm = w) ∧
    (∀ i (h : i < w.manifest.readingOrder.length),
      (w.manifest.readingOrder[i]).href = path →
      (∀ j (hj : j < i), (w.manifest.readingOrder[j]).href ≠ path) →
      w.MarkAsEncrypted path profile algorithm =
        { w with manifest := { w.manifest with readingOrder :=
            (w.manifest.readingOrder.set i
              { w.manifest.readingOrder[i] with properties :=
                  (some ⟨some ⟨Pack.lcpScheme, profile, algorithm⟩⟩) }) } }) := by
  constructor
  · intro h
    have := Pack.markRO_eq_self w.manifest.readingOrder path profile algorithm h
    simp only [Pack.RWPPWriter.MarkAsEncrypted, this]
  · intro i h hp hfirst
    have := Pack.markRO_eq_set w.manifest.readingOrder path profile algorithm
      i h hp hfirst
    simp only [Pack.RWPPWriter.MarkAsEncrypted, this]

theorem c3_markAsEncrypted_first_match_only_witness :
    Pack.RWPPWriter.MarkAsEncrypted
        ⟨⟨"t", [⟨"a.html", "text/html", none⟩, ⟨"b.html", "text/html", none⟩],
          []⟩, []⟩ "b.html" "1.0" "aes-cbc" =
      ⟨⟨"t", [⟨"a.html", "text/html", none⟩, ⟨"b.html", "text/html",
          some ⟨some ⟨Pack.lcpScheme, "1.0", "aes-cbc"⟩⟩⟩], []⟩, []⟩ ∧
    Pack.RWPPWriter.MarkAsEncrypted
        ⟨⟨"t", [⟨"a.html", "text/html", none⟩], []⟩, []⟩ "zzz" "1.0"
        "aes-cbc" =
      ⟨⟨"t", [⟨"a.html", "text/html", none⟩], []⟩, []⟩ :=
  ⟨((c3_markAsEncrypted_first_match_only _ "b.html" "1.0" "aes-cbc").2 1
      (by decide) (by decide) (by decide)).trans (by decide),
   (c3_markAsEncrypted_first_match_only _ "zzz" "1.0" "aes-cbc").1
      (by decide)⟩

/-- C4 counterexample: with a failing manifest serialization,
`RWPPWriter.Close` returns the manifest error but returns before
`zipWriter.Close()` — the archive close is not attempted, refuting "the
archive close is still attempted". -/
theorem c4_close_not_attempted_counterexample :
    (Pack.RWPPWriter.Close ⟨⟨"t", [], []⟩, []⟩ (some "manifest encode failed")
        (some "archive close failed")).archiveCloseAttempted = false ∧
    (Pack.RWPPWriter.Close ⟨⟨"t", [], []⟩, []⟩ (some "manifest encode failed")
        (some "archive close failed")).error = some "manifest encode failed" :=
  ⟨rfl, rfl⟩

/-- C4 (amended): if serializing the working manifest fails, that error is
returned at once and the archive close is not attempted; only when manifest
serialization succeeds is the archive close performed and its failure
propagated. -/
theorem c4_close_error_precedence (w : Pack.RWPPWriter)
    (wme ace : Option Err) :
    (∀ e, wme = some e →
      (w.Close wme ace).error = some e ∧
      (w.Close wme ace).archiveCloseAttempted = false) ∧
    (wme = none →
      (w.Close wme ace).archiveCloseAttempted = true ∧
      (w.Close wme ace).error = ace) := by
  constructor
  · intro e he
    subst he
    exact ⟨rfl, rfl⟩
  · intro he
    subst he
    exact ⟨rfl, rfl⟩

theorem c4_close_error_precedence_witness :
    ((Pack.RWPPWriter.Close ⟨⟨"t", [], []⟩, []⟩ (some "boom") none).error =
        some "boom" ∧
      (Pack.RWPPWriter.Close ⟨⟨"t", [], []⟩, []⟩ (some "boom")
        none).archiveCloseAttempted = false) ∧
    ((Pack.RWPPWriter.Close ⟨⟨"t", [], []⟩, []⟩ none
        (some "late")).archiveCloseAttempted = true ∧
      (Pack.RWPPWriter.Close ⟨⟨"t", [], []⟩, []⟩ none (some "late")).error =
        some "late") :=
  ⟨(c4_close_error_precedence _ _ _).1 _ rfl,
   (c4_close_error_precedence _ _ _).2 rfl⟩

/-- C5: `DataForFile` parses the path as a URI reference, takes its escaped
path, and compares it by exact string equality against each record's stored
cipher-reference URI, returning the first match and not-found otherwise; in
particular not-found on an empty record list, and the unique match when
exactly one record's URI equals the escaped path. -/
theorem c5_dataForFile_first_match (m : Xmlenc.Manifest) (p : String) :
    (m.data = [] → m.DataForFile p = none) ∧
    (∀ u, UrlModel.escapedPath p = some u →
      ((∀ d ∈ m.data, d.enc.cipherData.cipherReference.uri ≠ u) →
        m.DataForFile p = none) ∧
      (∀ i (h : i < m.data.length),
        (m.data[i]).enc.cipherData.cipherReference.uri = u →
        (∀ j (hj : j < i), (m.data[j]).enc.cipherData.cipherReference.uri ≠ u) →
        m.DataForFile p = some m.data[i]) ∧
      (∀ d ∈ m.data, d.enc.cipherData.cipherReference.uri = u →
        (∀ e ∈ m.data, e.enc.cipherData.cipherReference.uri = u → e = d) →
        m.DataForFile p = some d)) := by
  constructor
  · intro hm
    rw [Xmlenc.Manifest.DataForFile, hm]
    cases UrlModel.escapedPath p <;> simp
  · intro u hu
    refine ⟨?_, ?_, ?_⟩
    · intro hno
      rw [Xmlenc.Manifest.DataForFile, hu]
      exact List.find?_eq_none.mpr (fun d hd => by simp [hno d hd])
    · intro i h hp hfirst
      rw [Xmlenc.Manifest.DataForFile, hu]
      exact find_first_eq m.data _ i h (by simp [hp])
        (fun j hj => by simp [hfirst j hj])
    · intro d hd hdu huniq
      rw [Xmlenc.Manifest.DataForFile, hu]
      have hsome : (m.data.find? (fun e =>
          e.enc.cipherData.cipherReference.uri = u)).isSome := by
        rw [List.find?_isSome]
        exact ⟨d, hd, by simp [hdu]⟩
      obtain ⟨d0, hf⟩ := Option.isSome_iff_exists.mp hsome
      have hq : d0.enc.cipherData.cipherReference.uri = u := by
        simpa using List.find?_some hf
      have hmem : d0 ∈ m.data := List.mem_of_find?_eq_some hf
      show m.data.find? (fun e => e.enc.cipherData.cipherReference.uri = u) =
        some d
      rw [hf, huniq d0 hmem hq]

theorem c5_dataForFile_first_match_witness :
    Xmlenc.Manifest.DataForFile
        ⟨[⟨⟨⟨256, "aes-cbc"⟩, none, ⟨⟨"chapter1.xhtml"⟩, ""⟩, "", "", "", ""⟩,
          none⟩]⟩ "chapter1.xhtml" =
      some ⟨⟨⟨256, "aes-cbc"⟩, none, ⟨⟨"chapter1.xhtml"⟩, ""⟩, "", "", "", ""⟩,
        none⟩ ∧
    Xmlenc.Manifest.DataForFile ⟨[]⟩ "chapter1.xhtml" = none :=
  ⟨((c5_dataForFile_first_match _ "chapter1.xhtml").2 "chapter1.xhtml"
      rfl).2.1 0 (by decide) rfl (by decide),
   (c5_dataForFile_first_match ⟨[]⟩ "chapter1.xhtml").1 rfl⟩

/-- C6: writing a manifest always emits the standard XML declaration and the
2-space indentation setting, and parsing the written output back yields a
manifest with the same cipher-data records. -/
theorem c6_write_read_round_trip (m : Xmlenc.Manifest) :
    Xmlenc.Read m.Write = m ∧
    (m.Write).header = Xmlenc.xmlHeader ∧
    (m.Write).indentLead = "" ∧ (m.Write).indentStep = "  " :=
  ⟨Xmlenc.decodeManifest_encodeManifest m, rfl, rfl, rfl⟩

/-- C7: `Resources` yields one resource per reading-order link (ancillary
resources contribute nothing), in manifest order, the resource's encrypted
flag true exactly when the source manifest attached an encryption record to
that link. -/
theorem c7_resources_reading_order_only (r : Pack.RWPPReader) :
    List.Forall₂ (fun (res : Pack.RwpResource) (l : Pack.Link) =>
        (res.isEncrypted = true ↔
          ∃ pr e, l.properties = some pr ∧ pr.encrypted = some e) ∧
        res.contentType = l.type)
      r.Resources r.manifest.readingOrder ∧
    ∀ anc : List Pack.Link,
      Pack.RWPPReader.Resources ⟨{ r.manifest with resources := anc },
        r.zipArchive⟩ = r.Resources := by
  constructor
  · rw [Pack.RWPPReader.Resources, List.forall₂_map_left_iff]
    rw [List.forall₂_same]
    intro l _
    refine ⟨?_, rfl⟩
    constructor
    · intro he
      rcases hp : l.properties with _ | pr
      · rw [hp] at he
        simp at he
      · rw [hp] at he
        simp only [Option.isSome_iff_exists] at he
        obtain ⟨e, hpe⟩ := he
        exact ⟨pr, e, by simp [hp], hpe⟩
    · rintro ⟨pr, e, hp, hpe⟩
      simp [hp, hpe]
  · intro anc
    rfl

/-- C8: opening a container with no entry at the fixed manifest location
fails with the "Could not find manifest" error and returns no reader. -/
theorem c8_missing_manifest_not_found (entries : List Pack.ZipFile)
    (h : ∀ f ∈ entries, f.name ≠ Pack.ManifestLocation) :
    Pack.NewRWPPReader entries = Except.error "Could not find manifest" := by
  have hfind : entries.find? (fun f => f.name = Pack.ManifestLocation) =
      none :=
    List.find?_eq_none.mpr (fun f hf => by simp [h f hf])
  rw [Pack.NewRWPPReader, hfind]

theorem c8_missing_manifest_not_found_witness :
    Pack.NewRWPPReader [{ name := "chapter1.xhtml" }, { name := "styles.css" }] =
      Except.error "Could not find manifest" :=
  c8_missing_manifest_not_found _ (by decide)

/-- C9: `NewFile` appends the link {href, type} to the working reading order
unconditionally — also when creating the destination archive entry fails and
the error is returned — so the manifest state changes even on error, while
the archive gains no entry. -/
theorem c9_newFile_appends_even_on_error (w : Pack.RWPPWriter)
    (p t : String) (m : Nat) (e : Err) :
    ((w.NewFile p t m (some e)).1).manifest.readingOrder =
      w.manifest.readingOrder ++ [{ href := p, type := t }] ∧
    (w.NewFile p t m (some e)).2 = some e ∧
    ((w.NewFile p t m (some e)).1).zipEntries = w.zipEntries :=
  ⟨rfl, rfl, rfl⟩

/-- C10: for every resource view of the JSON-manifest package reader,
`CanBeEncrypted` is `true` and `CompressBeforeEncryption` is `false`,
independent of the resource's path, content type or encryption status. -/
theorem c10_eligibility_flags_constant (res : Pack.RwpResource) :
    res.canBeEncrypted = true ∧ res.compressBeforeEncryption = false :=
  ⟨rfl, rfl⟩
